import Mathlib

/-!
Shallow embedding of the crochet parser-combinator engine (src/src/lib.rs and
src/src/json.rs).  Input positions are modelled as `List Char`: a position in
the Rust code is a suffix slice `&'a str` of the original input, and every
byte-level slice operation the code performs (`split_at(literal.len())`,
`&input[c.len_utf8()..]`, `split_at(sum of len_utf8)`) lands on a character
boundary, so it corresponds exactly to dropping whole characters from the
front of the character list.
-/

namespace Crochet

/-- Error enumeration of the engine.  Modelled from the spec: the file
`error.rs` declaring `ParserError` is not among the sources; spec section 3
fixes it as a closed enumeration with exactly these three variants, each
carrying only a static descriptor. -/
inductive ParserError where
  | ExpectedLiteral (text : List Char)
  | ExpectedToken (name : String)
  | UnexpectedEndOfFile
deriving DecidableEq

/-- Tri-state outcome (lib.rs `ParserResultType`): success, definite error, or
`Incomplete` (need more input). -/
inductive ParserResultType (T E : Type) where
  | Ok (v : T)
  | Err (e : E)
  | Incomplete
deriving DecidableEq

/-- Parser result (lib.rs `ParserResult`): the remaining input `source`
together with the tri-state outcome. -/
structure ParserResult (T E : Type) where
  source : List Char
  typ : ParserResultType T E
deriving DecidableEq

/-- A parser is a function from remaining input to a result (lib.rs `Parser`
trait, blanket-implemented for every such closure). -/
abbrev Parser (T E : Type) := List Char → ParserResult T E

variable {T E V D : Type}

/-- lib.rs `ParserResult::from_val`. -/
def ParserResult.from_val (source : List Char) (val : T) : ParserResult T E :=
  ⟨source, .Ok val⟩

/-- lib.rs `ParserResult::from_err`. -/
def ParserResult.from_err (source : List Char) (err : E) : ParserResult T E :=
  ⟨source, .Err err⟩

/-- lib.rs `ParserResult::incomplete`. -/
def ParserResult.incomplete (source : List Char) : ParserResult T E :=
  ⟨source, .Incomplete⟩

/-- lib.rs `ParserResult::is_ok`. -/
def ParserResult.is_ok (r : ParserResult T E) : Bool :=
  match r.typ with
  | .Ok _ => true
  | _ => false

/-- lib.rs `ParserResult::ok`. -/
def ParserResult.ok (r : ParserResult T E) : Option T :=
  match r.typ with
  | .Ok v => some v
  | _ => none

/-- lib.rs `ParserResultType::map`. -/
def ParserResultType.map (r : ParserResultType T E) (f : T → V) : ParserResultType V E :=
  match r with
  | .Ok t => .Ok (f t)
  | .Incomplete => .Incomplete
  | .Err e => .Err e

/-- lib.rs `ParserResult::map`. -/
def ParserResult.map (r : ParserResult T E) (f : T → V) : ParserResult V E :=
  ⟨r.source, r.typ.map f⟩

/-- lib.rs `ParserResult::optional`: the position is the advanced one on
success, the caller-supplied `start` otherwise, and the value is `r.ok`. -/
def ParserResult.optional (r : ParserResult T E) (start : List Char) :
    ParserResult (Option T) E :=
  let position := match r.typ with
    | .Ok _ => r.source
    | _ => start
  ParserResult.from_val position r.ok

/-- lib.rs `ParserResult::or`: keep `self` if it is `Ok`, otherwise run the
alternative from the caller-supplied start position. -/
def ParserResult.or (r : ParserResult T E) (start : List Char) (p : Parser T E) :
    ParserResult T E :=
  if r.is_ok then r else p start

/-- lib.rs `ParserResult::and`: the two uses of the `?` operator are expanded
into matches that propagate the failing result's tag at its own position. -/
def ParserResult.and (r : ParserResult T E) (p : Parser V E) :
    ParserResult (T × V) E :=
  match r.typ with
  | .Ok v1 =>
    let r2 := p r.source
    match r2.typ with
    | .Ok v2 => ParserResult.from_val r2.source (v1, v2)
    | .Err e => ParserResult.from_err r2.source e
    | .Incomplete => ParserResult.incomplete r2.source
  | .Err e => ParserResult.from_err r.source e
  | .Incomplete => ParserResult.incomplete r.source

/-- lib.rs `ParserResult::flat_map`: `self?`, then `p(val, s)`. -/
def ParserResult.flat_map (r : ParserResult T E)
    (p : T → List Char → ParserResult V E) : ParserResult V E :=
  match r.typ with
  | .Ok v => p v r.source
  | .Err e => ParserResult.from_err r.source e
  | .Incomplete => ParserResult.incomplete r.source

/-- lib.rs `ParserResult::parsed_slice`: `&original[..original.len() - self.source.len()]`. -/
def ParserResult.parsed_slice (r : ParserResult T E) (original : List Char) :
    List Char :=
  original.take (original.length - r.source.length)

/-- lib.rs `literal`: succeed iff the input starts with the literal text,
consuming exactly that prefix (`split_at(literal.len())` on a confirmed
prefix is `take`/`drop` of its character length), otherwise fail with
`ExpectedLiteral` at the unchanged position. -/
def literal (lit : List Char) (input : List Char) :
    ParserResult (List Char) ParserError :=
  if lit.isPrefixOf input then
    ParserResult.from_val (input.drop lit.length) (input.take lit.length)
  else
    ParserResult.from_err input (.ExpectedLiteral lit)

/-- lib.rs `matching_char`: succeed on a first character satisfying the
filter, consuming it (`&input[c.len_utf8()..]` is the tail of the character
list), otherwise fail with `ExpectedToken` at the unchanged position. -/
def matching_char (token_name : String) (filter : Char → Bool)
    (input : List Char) : ParserResult Char ParserError :=
  match input with
  | c :: rest =>
    if filter c then ParserResult.from_val rest c
    else ParserResult.from_err input (.ExpectedToken token_name)
  | [] => ParserResult.from_err input (.ExpectedToken token_name)

/-- lib.rs `take_while`: split the input at the maximal leading run
satisfying the filter (the byte length summed from `len_utf8` marks exactly
the boundary between `takeWhile` and `dropWhile`); an empty run is a failure
with `ExpectedToken`. -/
def take_while (token_name : String) (filter : Char → Bool)
    (input : List Char) : ParserResult (List Char) ParserError :=
  let parsed := input.takeWhile filter
  if parsed.length = 0 then
    ParserResult.from_err input (.ExpectedToken token_name)
  else
    ParserResult.from_val (input.dropWhile filter) parsed

/-- lib.rs `advance`: consume a single character, or fail with
`UnexpectedEndOfFile` on empty input. -/
def advance (input : List Char) : ParserResult Char ParserError :=
  match input with
  | c :: rest => ParserResult.from_val rest c
  | [] => ParserResult.from_err input .UnexpectedEndOfFile

/-- Total number of bytes in the UTF-8 encoding of a character list; the
Rust side's positions are byte slices, and consumed width is measured in
these units. -/
def utf8Len (s : List Char) : Nat := (s.map Char.utf8Size).sum

/-- Rust `std::ops::Bound<usize>` as used by the repetition bounds. -/
inductive RBound where
  | included (n : Nat)
  | excluded (n : Nat)
  | unbounded
deriving DecidableEq

/-- lib.rs `is_under`: is `num` within the upper bound. -/
def is_under (num : Nat) (bound : RBound) : Bool :=
  match bound with
  | .included b => num ≤ b
  | .excluded b => num < b
  | .unbounded => true

/-- Pair of range bounds, standing for the `impl RangeBounds<usize>` argument
(for example `2..=4` is `⟨included 2, included 4⟩`). -/
structure RangeB where
  start_bound : RBound
  end_bound : RBound
deriving DecidableEq

/-- Rust `RangeBounds::contains` on `usize` bounds. -/
def RangeB.contains (bounds : RangeB) (num : Nat) : Bool :=
  (match bounds.start_bound with
    | .included b => b ≤ num
    | .excluded b => b < num
    | .unbounded => true) &&
  is_under num bounds.end_bound

/-- Loop body of lib.rs `Parser::parse_repeating`: while the accumulated
count is under the end bound, run the parser; push the value and advance on
success, otherwise stash the failing result and stop.  The extra fuel
argument only bounds the recursion; `repFuel` below always provides enough
fuel for every run of the Rust loop that terminates. -/
def repLoop (p : Parser T E) (endB : RBound) :
    Nat → List Char → List T → List T × List Char × Option (ParserResult T E)
  | 0, input, elems => (elems, input, none)
  | fuel + 1, input, elems =>
    if is_under elems.length endB then
      let parsed := p input
      match parsed.typ with
      | .Ok v => repLoop p endB fuel parsed.source (elems ++ [v])
      | _ => (elems, input, some parsed)
    else
      (elems, input, none)

/-- Fuel for `repLoop`: a bounded end bound stops the loop after at most
`b + 1` successful pushes, so `b + 2` iterations always suffice; with an
unbounded end bound the Rust loop terminates only if the parser eventually
fails, which for input-consuming parsers happens within `input.length + 1`
iterations (a success that consumes nothing would make the Rust loop run
forever, a case with no terminating behaviour to model). -/
def repFuel (endB : RBound) (input : List Char) : Nat :=
  match endB with
  | .included b => b + 2
  | .excluded b => b + 2
  | .unbounded => input.length + 1

/-- lib.rs `Parser::parse_repeating`.  After the loop, if the accumulated
count violates `bounds`, the Rust code runs `err.expect(..)` and maps the
stored failing result over an unreachable value: `none` here models the
run-time abort of `expect` when no failing result was stored. -/
def parse_repeating (p : Parser T E) (input : List Char) (bounds : RangeB) :
    Option (ParserResult (List T) E) :=
  match repLoop p bounds.end_bound (repFuel bounds.end_bound input) input [] with
  | (elems, input2, err) =>
    if !(bounds.contains elems.length) then
      match err with
      | some r =>
        match r.typ with
        | .Ok _ => none
        | .Err e => some (ParserResult.from_err r.source e)
        | .Incomplete => some (ParserResult.incomplete r.source)
      | none => none
    else
      some (ParserResult.from_val input2 elems)

/-- The single-decimal-digit parser used by the spec's repetition and list
examples. -/
def digit (s : List Char) : ParserResult Char ParserError :=
  matching_char "digit" Char.isDigit s

/-- Loop of lib.rs `delimited_list`: try the delimiter parser; on its failure
stop normally with the accumulators; on its success consume it, record it,
and parse the next element as mandatory, its failure propagating via `?`.
The accumulators are the ordered-sequence containers.  Modelled from the
spec where `container.rs` is absent from the sources: the `Container`
capability is create-empty / add-one, instantiated here at the keep-all
ordered list accumulator.  The fuel argument only bounds the recursion and
is always sufficient for terminating Rust runs, since a delimiter-plus-
element round that consumes no input would loop forever in the Rust code. -/
def dlLoop (elemP : Parser T E) (delimP : Parser D E) :
    Nat → List Char → List T → List D → ParserResult (List T × List D) E
  | 0, input, elems, delims => ParserResult.from_val input (elems, delims)
  | fuel + 1, input, elems, delims =>
    let delim := delimP input
    match delim.typ with
    | .Ok d =>
      let r := elemP delim.source
      match r.typ with
      | .Ok v => dlLoop elemP delimP fuel r.source (elems ++ [v]) (delims ++ [d])
      | .Err e => ParserResult.from_err r.source e
      | .Incomplete => ParserResult.incomplete r.source
    | _ => ParserResult.from_val input (elems, delims)

/-- lib.rs `delimited_list`: one mandatory first element (failure propagated
via `?`), then the delimiter/element loop. -/
def delimited_list (elemP : Parser T E) (delimP : Parser D E)
    (input : List Char) : ParserResult (List T × List D) E :=
  (elemP input).flat_map fun first input2 =>
    dlLoop elemP delimP (input2.length + 1) input2 [first] []

/-- Escape table of json.rs `parse_esc`: `n` to newline, `t` to tab, any
other character to itself. -/
def esc_char (c : Char) : Char :=
  match c with
  | 'n' => '\n'
  | 't' => '\t'
  | _ => c

/-- json.rs `parse_esc`: a backslash (via `?`), then one consumed character
(via `?`), mapped through the escape table at the advanced position. -/
def parse_esc (s : List Char) : ParserResult Char ParserError :=
  (literal ['\\'] s).flat_map fun _ s2 => (advance s2).map esc_char

/-- Drain of the lazy iteration adapter composed with `.ok().collect()`.
Modelled from the spec: `iter.rs` with `ParsIter` and `ParsingIterator` is
absent from the sources; spec section 4.5 fixes the behaviour — each pull
attempts one parse from the current cursor; on success the cursor advances
and the value is yielded; on failure the sequence terminates with the cursor
not advanced.  The fuel argument only bounds the drain; the parser used by
`parse_str` consumes at least one character per success, so `length + 1`
pulls always reach the terminating failure. -/
def iter_ok (p : Parser T E) : Nat → List Char → List T × List Char
  | 0, s => ([], s)
  | fuel + 1, s =>
    match (p s).typ with
    | .Ok v =>
      let rest := iter_ok p fuel (p s).source
      (v :: rest.1, rest.2)
    | _ => ([], s)

/-- json.rs `parse_str`: opening quote (via `?`), then the iterated sequence
of either an escaped character or any non-quote character collected into the
string, then the closing quote (via `?`), succeeding with the collected
string at the position after the closing quote. -/
def parse_str (s : List Char) : ParserResult (List Char) ParserError :=
  (literal ['"'] s).flat_map fun _ s2 =>
    match iter_ok (fun t => (parse_esc t).or t
        (fun u => matching_char "char" (fun c => c != '"') u))
        (s2.length + 1) s2 with
    | (string, s3) => (literal ['"'] s3).map fun _ => string

/-- A parser whose result position is always a suffix of the input position
it was applied to. -/
def SuffixSafe (p : Parser T E) : Prop :=
  ∀ s, (p s).source <:+ s

/-- C3: `and` sequences two steps.  If `r` is `Ok v`, the continuation runs
from `r`'s position and the result is its outcome paired with `v` (joint
success at the continuation's position, its failure propagated unchanged).
If `r` is `Err` or `Incomplete`, `r`'s failure tag and position are returned
unchanged, and the result does not depend on the continuation at all — the
continuation is never invoked. -/
theorem c3_and_short_circuit (r : ParserResult T E) (p : Parser V E) :
    (∀ v, r.typ = .Ok v → r.and p = (p r.source).map (fun w => (v, w))) ∧
    (∀ e, r.typ = .Err e → r.and p = ParserResult.from_err r.source e) ∧
    (r.typ = .Incomplete → r.and p = ParserResult.incomplete r.source) ∧
    (∀ q : Parser V E, r.is_ok = false → r.and p = r.and q) := by
  obtain ⟨src, typ⟩ := r
  refine ⟨?_, ?_, ?_, ?_⟩
  · rintro v rfl
    simp only [ParserResult.and, ParserResult.map]
    rcases h : (p src).typ with v2 | e2 | _ <;>
      simp [ParserResultType.map, h, ParserResult.from_val,
        ParserResult.from_err, ParserResult.incomplete]
  · rintro e rfl; rfl
  · rintro rfl; rfl
  · intro q h
    cases typ with
    | Ok v => simp [ParserResult.is_ok] at h
    | Err e => rfl
    | Incomplete => rfl

/-- Witness for C3 at concrete inputs: an erroneous result short-circuits
(the continuation result is its failure unchanged), and an `Ok` result runs
the continuation. -/
theorem c3_and_short_circuit_witness :
    ((ParserResult.from_err ['x'] ParserError.UnexpectedEndOfFile :
        ParserResult Char ParserError).and
      (fun s => ParserResult.from_val s 'z') =
      ParserResult.from_err ['x'] ParserError.UnexpectedEndOfFile) ∧
    ((ParserResult.from_val ['x'] 'a' :
        ParserResult Char ParserError).and
      (fun s => ParserResult.from_val s 'z') =
      ParserResult.from_val ['x'] ('a', 'z')) := by
  constructor
  · exact (c3_and_short_circuit _ _).2.1 ParserError.UnexpectedEndOfFile rfl
  · exact ((c3_and_short_circuit
      (ParserResult.from_val ['x'] 'a')
      (fun s => ParserResult.from_val s 'z')).1 'a' rfl).trans rfl

/-- C4: `or` is left-biased.  An `Ok` result is returned unchanged and the
alternative is never invoked (the result does not depend on it); on `Err` or
`Incomplete` the result is exactly the alternative applied from the
caller-supplied start position, the original failure discarded. -/
theorem c4_or_left_biased (r : ParserResult T E) (start : List Char)
    (p : Parser T E) :
    (r.is_ok = true → r.or start p = r) ∧
    (r.is_ok = false → r.or start p = p start) ∧
    (∀ q : Parser T E, r.is_ok = true → r.or start p = r.or start q) := by
  refine ⟨fun h => ?_, fun h => ?_, fun q h => ?_⟩ <;>
    simp [ParserResult.or, h]

/-- Witness for C4 at concrete inputs: an `Ok` result survives `or`, a failed
result is replaced by the alternative run from the start position. -/
theorem c4_or_left_biased_witness :
    ((ParserResult.from_val ['y'] 'a' : ParserResult Char ParserError).or
      ['a', 'y'] (fun s => ParserResult.from_val s 'q') =
      ParserResult.from_val ['y'] 'a') ∧
    ((ParserResult.from_err ['y'] ParserError.UnexpectedEndOfFile :
        ParserResult Char ParserError).or
      ['a', 'y'] (fun s => ParserResult.from_val s 'q') =
      ParserResult.from_val ['a', 'y'] 'q') := by
  exact ⟨(c4_or_left_biased _ _ _).1 rfl, (c4_or_left_biased _ _ _).2.1 rfl⟩

/-- C5: `optional` is total.  It always yields `Ok`; an `Ok v` input becomes
`some v` at the advanced position, a failed input becomes `none` with the
position reverted to the caller-supplied start, not the failure position. -/
theorem c5_optional_total (r : ParserResult T E) (start : List Char) :
    (r.optional start).is_ok = true ∧
    (∀ v, r.typ = .Ok v →
      r.optional start = ParserResult.from_val r.source (some v)) ∧
    (r.is_ok = false → r.optional start = ParserResult.from_val start none) := by
  obtain ⟨src, typ⟩ := r
  refine ⟨?_, ?_, ?_⟩
  · cases typ <;> rfl
  · rintro v rfl; rfl
  · intro h
    cases typ with
    | Ok v => simp [ParserResult.is_ok] at h
    | Err e => rfl
    | Incomplete => rfl

/-- Witness for C5 at concrete inputs: a failed attempt yields `none` at the
original start position; a success yields `some` at the advanced position. -/
theorem c5_optional_total_witness :
    ((ParserResult.from_err ['y'] ParserError.UnexpectedEndOfFile :
        ParserResult Char ParserError).optional ['a', 'y'] =
      ParserResult.from_val ['a', 'y'] none) ∧
    ((ParserResult.from_val ['y'] 'a' :
        ParserResult Char ParserError).optional ['a', 'y'] =
      ParserResult.from_val ['y'] (some 'a')) := by
  exact ⟨(c5_optional_total _ _).2.2 rfl, (c5_optional_total _ _).2.1 'a' rfl⟩

/-- Helper: the first character left behind by `dropWhile` fails the filter. -/
theorem dropWhile_head_false {α : Type} (filter : α → Bool) :
    ∀ (l : List α) c rest, l.dropWhile filter = c :: rest → filter c = false := by
  intro l
  induction l with
  | nil => intro c rest h; simp [List.dropWhile] at h
  | cons a l ih =>
    intro c rest h
    by_cases ha : filter a
    · rw [List.dropWhile_cons, if_pos ha] at h
      exact ih c rest h
    · rw [List.dropWhile_cons, if_neg ha] at h
      cases h
      simpa using ha

/-- C7: `take_while` succeeds exactly when at least one leading character
satisfies the predicate; on success it consumes the maximal matching prefix
(every consumed character matches and the next remaining one, if any, does
not) and returns it as the value; with zero leading matches it fails with
`ExpectedToken` at the unchanged position; a successful value is never
empty. -/
theorem c7_take_while_nonempty_max (token_name : String) (filter : Char → Bool)
    (input : List Char) :
    ((take_while token_name filter input).is_ok = true ↔
      ∃ c rest, input = c :: rest ∧ filter c = true) ∧
    (input.takeWhile filter = [] →
      take_while token_name filter input =
        ParserResult.from_err input (.ExpectedToken token_name)) ∧
    (input.takeWhile filter ≠ [] →
      take_while token_name filter input =
        ParserResult.from_val (input.dropWhile filter) (input.takeWhile filter) ∧
      input.takeWhile filter ++ input.dropWhile filter = input ∧
      (∀ c ∈ input.takeWhile filter, filter c = true) ∧
      (∀ c rest, input.dropWhile filter = c :: rest → filter c = false)) ∧
    (∀ v, (take_while token_name filter input).typ = .Ok v → v ≠ []) := by
  refine ⟨⟨?_, ?_⟩, ?_, ?_, ?_⟩
  · intro hok
    cases input with
    | nil => simp [take_while, ParserResult.is_ok, ParserResult.from_err] at hok
    | cons c rest =>
      by_cases h : filter c
      · exact ⟨c, rest, rfl, h⟩
      · simp [take_while, List.takeWhile_cons, h, ParserResult.is_ok,
          ParserResult.from_err] at hok
  · rintro ⟨c, rest, rfl, h⟩
    simp [take_while, List.takeWhile_cons, h, ParserResult.is_ok,
      ParserResult.from_val]
  · intro h
    simp [take_while, h]
  · intro h
    refine ⟨?_, List.takeWhile_append_dropWhile filter input, ?_, ?_⟩
    · simp only [take_while]
      rw [if_neg (by simpa using h)]
    · intro c hc
      exact List.mem_takeWhile_imp hc
    · exact fun c rest hc => dropWhile_head_false filter input c rest hc
  · intro v hv
    by_cases h : (input.takeWhile filter).length = 0
    · simp [take_while, h, ParserResult.from_err] at hv
    · have heq : take_while token_name filter input =
          ParserResult.from_val (input.dropWhile filter)
            (input.takeWhile filter) := by
        simp only [take_while]
        rw [if_neg h]
      rw [heq] at hv
      simp only [ParserResult.from_val, ParserResultType.Ok.injEq] at hv
      subst hv
      intro hnil
      simp [hnil] at h

/-- Witness for C7 at concrete inputs: a run of digits is consumed maximally,
and a non-digit head is an immediate failure. -/
theorem c7_take_while_nonempty_max_witness :
    take_while "digit" Char.isDigit ['1', '2', 'x'] =
      ParserResult.from_val ['x'] ['1', '2'] ∧
    take_while "digit" Char.isDigit ['x', '1'] =
      ParserResult.from_err ['x', '1'] (.ExpectedToken "digit") := by
  constructor
  · exact (((c7_take_while_nonempty_max "digit" Char.isDigit
      ['1', '2', 'x']).2.2.1 (by decide)).1).trans (by decide)
  · exact (c7_take_while_nonempty_max "digit" Char.isDigit ['x', '1']).2.1
      (by decide)

/-- C8: `literal` succeeds exactly when the input starts with the text,
consuming the text exactly (value is the text, the remaining input is what
follows it); otherwise it fails with `ExpectedLiteral` at the unchanged
position.  Concretely, `literal "if"` on `"ifx"` leaves `"x"` and on
`"elsex"` fails with `ExpectedLiteral "if"` at `"elsex"`. -/
theorem c8_literal_starts_with (text input : List Char) :
    (text.isPrefixOf input = true →
      literal text input =
        ParserResult.from_val (input.drop text.length) text ∧
      text ++ input.drop text.length = input) ∧
    (text.isPrefixOf input = false →
      literal text input = ParserResult.from_err input (.ExpectedLiteral text)) ∧
    literal ['i', 'f'] ['i', 'f', 'x'] = ParserResult.from_val ['x'] ['i', 'f'] ∧
    literal ['i', 'f'] ['e', 'l', 's', 'e', 'x'] =
      ParserResult.from_err ['e', 'l', 's', 'e', 'x']
        (.ExpectedLiteral ['i', 'f']) := by
  refine ⟨?_, ?_, by decide, by decide⟩
  · intro h
    have hp : text <+: input := List.isPrefixOf_iff_prefix.mp h
    obtain ⟨t, rfl⟩ := hp
    constructor
    · simp [literal, h, List.take_left, List.drop_left]
    · simp [List.drop_left]
  · intro h
    simp [literal, h]

/-- Witness for C8 at concrete inputs, discharging both prefix hypotheses. -/
theorem c8_literal_starts_with_witness :
    literal ['a'] ['a', 'b'] = ParserResult.from_val ['b'] ['a'] ∧
    literal ['a'] ['z', 'b'] =
      ParserResult.from_err ['z', 'b'] (.ExpectedLiteral ['a']) := by
  constructor
  · exact (((c8_literal_starts_with ['a'] ['a', 'b']).1 (by decide)).1).trans
      (by decide)
  · exact (c8_literal_starts_with ['a'] ['z', 'b']).2.1 (by decide)

/-- C9: a successful `matching_char` or `advance` consumes exactly the first
character: the remaining position is precisely the list of the following
characters (the next character boundary), and the consumed width in UTF-8
bytes is the character's full encoded size. -/
theorem c9_char_full_width (token_name : String) (filter : Char → Bool)
    (input : List Char) :
    (∀ c, (matching_char token_name filter input).typ = .Ok c →
      input = c :: (matching_char token_name filter input).source ∧
      utf8Len input =
        Char.utf8Size c + utf8Len (matching_char token_name filter input).source) ∧
    (∀ c, (advance input).typ = .Ok c →
      input = c :: (advance input).source ∧
      utf8Len input = Char.utf8Size c + utf8Len (advance input).source) := by
  constructor
  · intro c hc
    cases input with
    | nil => simp [matching_char, ParserResult.from_err] at hc
    | cons a rest =>
      by_cases ha : filter a
      · simp only [matching_char, if_pos ha, ParserResult.from_val] at hc ⊢
        cases hc
        simp [utf8Len]
      · simp [matching_char, if_neg ha, ParserResult.from_err] at hc
  · intro c hc
    cases input with
    | nil => simp [advance, ParserResult.from_err] at hc
    | cons a rest =>
      simp only [advance, ParserResult.from_val] at hc ⊢
      cases hc
      simp [utf8Len]

/-- Witness for C9 at a concrete input whose first character is multi-byte:
`advance` consumes the two bytes of `é` and leaves the next character. -/
theorem c9_char_full_width_witness :
    (['é', 'x'] = 'é' :: (advance ['é', 'x']).source ∧
      utf8Len ['é', 'x'] =
        Char.utf8Size 'é' + utf8Len (advance ['é', 'x']).source) ∧
    Char.utf8Size 'é' = 2 := by
  refine ⟨(c9_char_full_width "c" (fun _ => true) ['é', 'x']).2 'é' (by decide),
    by decide⟩

/-- C1: evaluation of `parse_repeating` at the spec's own example.  With the
digit parser and bounds `2..=4` over `"123456"`, the loop guard
`is_under(elems.len(), end_bound)` still holds at four accumulated matches
(`4 <= 4`), so a fifth digit is parsed and pushed; the loop then stops with
five matches, no stored failure, `bounds.contains(5)` is false, and
`err.expect(..)` aborts at run time (modelled by `none`) — instead of the
success with exactly four digits and `"56"` remaining that the claim states.
Over `"1x"` the second attempt fails as the claim describes. -/
theorem c1_parse_repeating_overshoots_and_aborts :
    repLoop digit (.included 4)
        (repFuel (.included 4) ['1', '2', '3', '4', '5', '6'])
        ['1', '2', '3', '4', '5', '6'] [] =
      (['1', '2', '3', '4', '5'], ['6'], none) ∧
    parse_repeating digit ['1', '2', '3', '4', '5', '6']
      ⟨.included 2, .included 4⟩ = none ∧
    parse_repeating digit ['1', 'x'] ⟨.included 2, .included 4⟩ =
      some (ParserResult.from_err ['x'] (.ExpectedToken "digit")) := by
  decide

/-- C6: `delimited_list` parses one mandatory first element whose failure
(error or incomplete) propagates as the failure of the whole list; in the
loop, a delimiter failure ends the list normally with both accumulators, a
successful delimiter makes the following element mandatory, its failure
propagating as the failure of the whole list, and joint success continues the
loop with both values recorded.  Concretely, digits separated by `","` over
`"1,2,3"` yield elements `1,2,3`, delimiters `",",","` and empty remainder,
while `"1,,2"` is a hard failure on the mandatory element after the first
delimiter. -/
theorem c6_delimited_list_contract (elemP : Parser T E) (delimP : Parser D E)
    (input : List Char) :
    (∀ e, (elemP input).typ = .Err e →
      delimited_list elemP delimP input =
        ParserResult.from_err (elemP input).source e) ∧
    ((elemP input).typ = .Incomplete →
      delimited_list elemP delimP input =
        ParserResult.incomplete (elemP input).source) ∧
    (∀ fuel elems delims, (delimP input).is_ok = false →
      dlLoop elemP delimP (fuel + 1) input elems delims =
        ParserResult.from_val input (elems, delims)) ∧
    (∀ fuel elems delims d e, (delimP input).typ = .Ok d →
      (elemP (delimP input).source).typ = .Err e →
      dlLoop elemP delimP (fuel + 1) input elems delims =
        ParserResult.from_err (elemP (delimP input).source).source e) ∧
    (∀ fuel elems delims d, (delimP input).typ = .Ok d →
      (elemP (delimP input).source).typ = .Incomplete →
      dlLoop elemP delimP (fuel + 1) input elems delims =
        ParserResult.incomplete (elemP (delimP input).source).source) ∧
    (∀ fuel elems delims d v, (delimP input).typ = .Ok d →
      (elemP (delimP input).source).typ = .Ok v →
      dlLoop elemP delimP (fuel + 1) input elems delims =
        dlLoop elemP delimP fuel (elemP (delimP input).source).source
          (elems ++ [v]) (delims ++ [d])) ∧
    delimited_list digit (literal [',']) ['1', ',', '2', ',', '3'] =
      ParserResult.from_val [] (['1', '2', '3'], [[','], [',']]) ∧
    delimited_list digit (literal [',']) ['1', ',', ',', '2'] =
      ParserResult.from_err [',', '2'] (.ExpectedToken "digit") := by
  refine ⟨?_, ?_, ?_, ?_, ?_, ?_, by decide, by decide⟩
  · intro e h
    simp [delimited_list, ParserResult.flat_map, h]
  · intro h
    simp [delimited_list, ParserResult.flat_map, h]
  · intro fuel elems delims h
    rcases ht : (delimP input).typ with d | e | _
    · simp [ParserResult.is_ok, ht] at h
    · simp [dlLoop, ht]
    · simp [dlLoop, ht]
  · intro fuel elems delims d e hd he
    simp [dlLoop, hd, he]
  · intro fuel elems delims d hd he
    simp [dlLoop, hd, he]
  · intro fuel elems delims d v hd hv
    simp [dlLoop, hd, hv]

/-- Witness for C6 at concrete inputs, discharging the first-element-failure,
delimiter-failure, mandatory-element-failure and continuation hypotheses. -/
theorem c6_delimited_list_contract_witness :
    delimited_list digit (literal [',']) ['x'] =
      ParserResult.from_err ['x'] (.ExpectedToken "digit") ∧
    dlLoop digit (literal [',']) 1 ['x'] ['1'] [] =
      ParserResult.from_val ['x'] (['1'], []) ∧
    dlLoop digit (literal [',']) 1 [',', 'x'] ['1'] [] =
      ParserResult.from_err ['x'] (.ExpectedToken "digit") ∧
    dlLoop digit (literal [',']) 1 [',', '2'] ['1'] [] =
      dlLoop digit (literal [',']) 0 [] ['1', '2'] [[',']] := by
  refine ⟨?_, ?_, ?_, ?_⟩
  · exact (c6_delimited_list_contract digit (literal [',']) ['x']).1
      (.ExpectedToken "digit") (by decide)
  · exact (c6_delimited_list_contract digit (literal [',']) ['x']).2.2.1
      0 ['1'] [] (by decide)
  · exact ((c6_delimited_list_contract digit (literal [','])
      [',', 'x']).2.2.2.1 0 ['1'] [] [','] (.ExpectedToken "digit")
      (by decide) (by decide)).trans (by decide)
  · exact ((c6_delimited_list_contract digit (literal [','])
      [',', '2']).2.2.2.2.2.1 0 ['1'] [] [','] '2'
      (by decide) (by decide)).trans (by decide)

/-- C2: the quoted-string parser on open quote, `a`, backslash-`n` escape,
`b`, close quote succeeds with the three characters `a`, newline, `b` and
consumes the whole input; on the unterminated input open quote, `a`, `b` it
fails, and the failure is at the exhausted (end-of-input) position and is
exactly the result the closing-quote literal step produces on empty input. -/
theorem c2_parse_str_escape_and_unterminated :
    parse_str ['"', 'a', '\\', 'n', 'b', '"'] =
      ParserResult.from_val [] ['a', '\n', 'b'] ∧
    parse_str ['"', 'a', 'b'] =
      ParserResult.from_err [] (.ExpectedLiteral ['"']) ∧
    literal ['"'] [] =
      ParserResult.from_err [] (.ExpectedLiteral ['"']) := by
  refine ⟨by decide, by decide, by decide⟩

/-- Helper: `literal` yields a suffix position. -/
theorem literal_source_suffix (lit input : List Char) :
    (literal lit input).source <:+ input := by
  by_cases h : lit.isPrefixOf input <;>
    simp [literal, h, ParserResult.from_val, ParserResult.from_err,
      List.drop_suffix, List.suffix_refl]

/-- Helper: `matching_char` yields a suffix position. -/
theorem matching_char_source_suffix (token_name : String)
    (filter : Char → Bool) (input : List Char) :
    (matching_char token_name filter input).source <:+ input := by
  cases input with
  | nil => exact List.suffix_refl _
  | cons a rest =>
    by_cases h : filter a
    · simp [matching_char, h, ParserResult.from_val, List.suffix_cons]
    · simp [matching_char, h, ParserResult.from_err, List.suffix_refl]

/-- Helper: `take_while` yields a suffix position. -/
theorem take_while_source_suffix (token_name : String)
    (filter : Char → Bool) (input : List Char) :
    (take_while token_name filter input).source <:+ input := by
  by_cases h : (input.takeWhile filter).length = 0 <;>
    simp [take_while, h, ParserResult.from_val, ParserResult.from_err,
      List.dropWhile_suffix, List.suffix_refl]

/-- Helper: `advance` yields a suffix position. -/
theorem advance_source_suffix (input : List Char) :
    (advance input).source <:+ input := by
  cases input with
  | nil => exact List.suffix_refl _
  | cons a rest =>
    simp [advance, ParserResult.from_val, List.suffix_cons]

/-- Helper: the loop of `parse_repeating` only moves the position to a
suffix, and any stashed failing result also carries a suffix position. -/
theorem repLoop_source_suffix (p : Parser T E) (endB : RBound)
    (hp : SuffixSafe p) :
    ∀ fuel input elems,
      (repLoop p endB fuel input elems).2.1 <:+ input ∧
      (∀ r, (repLoop p endB fuel input elems).2.2 = some r →
        r.source <:+ input) := by
  intro fuel
  induction fuel with
  | zero =>
    intro input elems
    refine ⟨List.suffix_refl _, fun r h => ?_⟩
    simp [repLoop] at h
  | succ fuel ih =>
    intro input elems
    by_cases hu : is_under elems.length endB
    · rcases ht : (p input).typ with v | e | _
      · have h1 : repLoop p endB (fuel + 1) input elems =
            repLoop p endB fuel (p input).source (elems ++ [v]) := by
          simp [repLoop, hu, ht]
        have h2 := ih (p input).source (elems ++ [v])
        rw [h1]
        exact ⟨h2.1.trans (hp input), fun r h => (h2.2 r h).trans (hp input)⟩
      · have h1 : repLoop p endB (fuel + 1) input elems =
            (elems, input, some (p input)) := by
          simp [repLoop, hu, ht]
        rw [h1]
        refine ⟨List.suffix_refl _, fun r h => ?_⟩
        simp only [Option.some.injEq] at h
        exact h ▸ hp input
      · have h1 : repLoop p endB (fuel + 1) input elems =
            (elems, input, some (p input)) := by
          simp [repLoop, hu, ht]
        rw [h1]
        refine ⟨List.suffix_refl _, fun r h => ?_⟩
        simp only [Option.some.injEq] at h
        exact h ▸ hp input
    · have h1 : repLoop p endB (fuel + 1) input elems =
          (elems, input, none) := by
        simp [repLoop, hu]
      rw [h1]
      refine ⟨List.suffix_refl _, fun r h => ?_⟩
      simp at h

/-- Helper: every result `parse_repeating` returns carries a suffix
position. -/
theorem parse_repeating_source_suffix (p : Parser T E) (hp : SuffixSafe p)
    (input : List Char) (bounds : RangeB) (r' : ParserResult (List T) E) :
    parse_repeating p input bounds = some r' → r'.source <:+ input := by
  intro h
  unfold parse_repeating at h
  rcases hrl : repLoop p bounds.end_bound (repFuel bounds.end_bound input)
      input [] with ⟨elems, input2, err⟩
  have hsuf := repLoop_source_suffix p bounds.end_bound hp
    (repFuel bounds.end_bound input) input []
  rw [hrl] at h hsuf
  by_cases hc : bounds.contains elems.length
  · simp [hc] at h
    rw [← h]
    exact hsuf.1
  · rcases err with _ | r0
    · simp [hc] at h
    · have hr0 : r0.source <:+ input := hsuf.2 r0 rfl
      rcases ht : r0.typ with v | e | _
      · simp [hc, ht] at h
      · simp [hc, ht] at h
        subst h
        exact hr0
      · simp [hc, ht] at h
        subst h
        exact hr0

/-- Helper: the loop of `delimited_list` yields a suffix position. -/
theorem dlLoop_source_suffix (elemP : Parser T E) (delimP : Parser D E)
    (he : SuffixSafe elemP) (hd : SuffixSafe delimP) :
    ∀ fuel input elems delims,
      (dlLoop elemP delimP fuel input elems delims).source <:+ input := by
  intro fuel
  induction fuel with
  | zero => intro input elems delims; exact List.suffix_refl _
  | succ fuel ih =>
    intro input elems delims
    rcases htd : (delimP input).typ with d | e | _
    · rcases hte : (elemP (delimP input).source).typ with v | e2 | _
      · have h1 : dlLoop elemP delimP (fuel + 1) input elems delims =
            dlLoop elemP delimP fuel (elemP (delimP input).source).source
              (elems ++ [v]) (delims ++ [d]) := by
          simp [dlLoop, htd, hte]
        rw [h1]
        exact ((ih _ _ _).trans (he _)).trans (hd input)
      · have h1 : dlLoop elemP delimP (fuel + 1) input elems delims =
            ParserResult.from_err (elemP (delimP input).source).source e2 := by
          simp [dlLoop, htd, hte]
        rw [h1]
        exact (he _).trans (hd input)
      · have h1 : dlLoop elemP delimP (fuel + 1) input elems delims =
            ParserResult.incomplete (elemP (delimP input).source).source := by
          simp [dlLoop, htd, hte]
        rw [h1]
        exact (he _).trans (hd input)
    · simp [dlLoop, htd, ParserResult.from_val, List.suffix_refl]
    · simp [dlLoop, htd, ParserResult.from_val, List.suffix_refl]

/-- Helper: `delimited_list` yields a suffix position. -/
theorem delimited_list_source_suffix (elemP : Parser T E)
    (delimP : Parser D E) (he : SuffixSafe elemP) (hd : SuffixSafe delimP)
    (input : List Char) :
    (delimited_list elemP delimP input).source <:+ input := by
  unfold delimited_list
  rcases ht : (elemP input).typ with v | e | _ <;>
    simp only [ParserResult.flat_map, ht]
  · exact (dlLoop_source_suffix elemP delimP he hd _ _ _ _).trans (he input)
  · exact he input
  · exact he input

/-- C10: every primitive and combinator returns positions that are suffixes
of the input position it was applied to — `literal`, `matching_char`,
`take_while` and `advance` unconditionally; `and`, `or`, `optional`,
`parse_repeating` and `delimited_list` whenever their argument result and
component parsers do — and consequently `parsed_slice` is well defined: for
a suffix position the remaining length never exceeds the original length
(the subtraction cannot underflow) and the consumed slice concatenated with
the remaining position reconstitutes the original input. -/
theorem c10_positions_are_suffixes :
    (∀ lit input, (literal lit input).source <:+ input) ∧
    (∀ token_name filter input,
      (matching_char token_name filter input).source <:+ input) ∧
    (∀ token_name filter input,
      (take_while token_name filter input).source <:+ input) ∧
    (∀ input, (advance input).source <:+ input) ∧
    (∀ (T E V : Type) (r : ParserResult T E) (p : Parser V E) input,
      r.source <:+ input → SuffixSafe p → (r.and p).source <:+ input) ∧
    (∀ (T E : Type) (r : ParserResult T E) (p : Parser T E) start,
      r.source <:+ start → SuffixSafe p → (r.or start p).source <:+ start) ∧
    (∀ (T E : Type) (r : ParserResult T E) start,
      r.source <:+ start → (r.optional start).source <:+ start) ∧
    (∀ (T E : Type) (p : Parser T E), SuffixSafe p →
      ∀ input bounds (r' : ParserResult (List T) E),
        parse_repeating p input bounds = some r' → r'.source <:+ input) ∧
    (∀ (T D E : Type) (elemP : Parser T E) (delimP : Parser D E),
      SuffixSafe elemP → SuffixSafe delimP →
      ∀ input, (delimited_list elemP delimP input).source <:+ input) ∧
    (∀ (T E : Type) (r : ParserResult T E) original, r.source <:+ original →
      r.source.length ≤ original.length ∧
      r.parsed_slice original ++ r.source = original) := by
  refine ⟨literal_source_suffix, matching_char_source_suffix,
    take_while_source_suffix, advance_source_suffix, ?_, ?_, ?_, ?_, ?_, ?_⟩
  · intro T E V r p input hr hp
    rcases ht : r.typ with v | e | _
    · rcases ht2 : (p r.source).typ with v2 | e2 | _ <;>
        · simp only [ParserResult.and, ht, ht2, ParserResult.from_val,
            ParserResult.from_err, ParserResult.incomplete]
          exact ((hp r.source).trans hr)
    · simpa [ParserResult.and, ht, ParserResult.from_err] using hr
    · simpa [ParserResult.and, ht, ParserResult.incomplete] using hr
  · intro T E r p start hr hp
    by_cases h : r.is_ok <;> simp only [ParserResult.or, h, if_true, if_false]
    · exact hr
    · simp only [Bool.false_eq_true, if_false]
      exact hp start
  · intro T E r start hr
    rcases ht : r.typ with v | e | _ <;>
      simp [ParserResult.optional, ht, ParserResult.from_val, hr,
        List.suffix_refl]
  · intro T E p hp input bounds r' h
    exact parse_repeating_source_suffix p hp input bounds r' h
  · intro T D E elemP delimP he hd input
    exact delimited_list_source_suffix elemP delimP he hd input
  · intro T E r original hr
    obtain ⟨t, rfl⟩ := hr
    constructor
    · simp
    · simp [ParserResult.parsed_slice, List.length_append,
        List.take_left]

/-- Witness for C10: each hypothesis-bearing conjunct applied at concrete
results and parsers. -/
theorem c10_positions_are_suffixes_witness :
    ((ParserResult.from_val ['1', 'x'] 'z' :
        ParserResult Char ParserError).and digit).source <:+ ['1', 'x'] ∧
    ((ParserResult.from_err ['x'] ParserError.UnexpectedEndOfFile :
        ParserResult Char ParserError).or ['1', 'x'] digit).source <:+
      ['1', 'x'] ∧
    ((ParserResult.from_err ['x'] ParserError.UnexpectedEndOfFile :
        ParserResult Char ParserError).optional ['1', 'x']).source <:+
      ['1', 'x'] ∧
    (ParserResult.from_err ['x'] (ParserError.ExpectedToken "digit") :
        ParserResult (List Char) ParserError).source <:+ ['1', 'x'] ∧
    (delimited_list digit (literal [',']) ['1', ',', '2']).source <:+
      ['1', ',', '2'] ∧
    (ParserResult.from_val ['x'] 'v' :
        ParserResult Char ParserError).parsed_slice ['a', 'x'] ++ ['x'] =
      ['a', 'x'] := by
  have hdigit : SuffixSafe digit :=
    fun s => matching_char_source_suffix "digit" Char.isDigit s
  have hcomma : SuffixSafe (literal [',']) :=
    fun s => literal_source_suffix [','] s
  refine ⟨?_, ?_, ?_, ?_, ?_, ?_⟩
  · exact c10_positions_are_suffixes.2.2.2.2.1 Char ParserError Char
      (ParserResult.from_val ['1', 'x'] 'z') digit ['1', 'x']
      (by decide) hdigit
  · exact c10_positions_are_suffixes.2.2.2.2.2.1 Char ParserError
      (ParserResult.from_err ['x'] ParserError.UnexpectedEndOfFile) digit
      ['1', 'x'] (by decide) hdigit
  · exact c10_positions_are_suffixes.2.2.2.2.2.2.1 Char ParserError
      (ParserResult.from_err ['x'] ParserError.UnexpectedEndOfFile)
      ['1', 'x'] (by decide)
  · exact c10_positions_are_suffixes.2.2.2.2.2.2.2.1 Char ParserError digit
      hdigit ['1', 'x'] ⟨.included 2, .included 4⟩
      (ParserResult.from_err ['x'] (ParserError.ExpectedToken "digit"))
      (by decide)
  · exact c10_positions_are_suffixes.2.2.2.2.2.2.2.2.1 Char (List Char)
      ParserError digit (literal [',']) hdigit hcomma ['1', ',', '2']
  · exact (c10_positions_are_suffixes.2.2.2.2.2.2.2.2.2 Char ParserError
      (ParserResult.from_val ['x'] 'v') ['a', 'x'] (by decide)).2

end Crochet
